import Mathlib

/-!
# Verification of the disaster-events pipeline (docs/script.js)

A shallow embedding of the merge/deduplication/preprocessing/clustering/risk
logic of the repository's display pipeline (`loadDisasterData`, `updateStats`,
`checkRiskAlerts` in `docs/script.js`, newest variant in `src/unnamed/part_000`).

Modelling conventions:
* JS strings are Lean `String`s; a missing/`null`/`undefined` string field is
  modelled as `""` (all uses in the source first coerce with `|| ''` or
  truthiness tests, for which `""` behaves exactly like null/undefined).
* JS numbers are `Rat` (finite doubles); `NaN` results of parsing are
  modelled with `Option` (`none` = NaN).  `crawled_at` timestamps, which the
  source only ever feeds through `new Date(...)` and compares, are modelled
  directly by their epoch-milliseconds value (`Int`, with absent = 0, matching
  `new Date(event.crawled_at || 0)`).
* `new Date(s)` on date strings is modelled by `parseDate`, an executable
  ISO-8601 (UTC) parser covering the feed's formats (`YYYY-MM-DD`,
  `YYYY-MM-DDTHH:MM:SS[.sss]` followed by `Z` or `±HH:MM`, Gregorian years
  ≥ 1600); other inputs yield `none` (invalid date).
* `Math.sqrt(d2) <= r` is embedded as `d2 ≤ r*r`, an equivalence for the
  nonnegative radii the source uses.
* The source's `toFixed(4)` bucketing is modelled by rounding to an integer
  number of ten-thousandths (round half away from zero).
-/

/-- JS whitespace test (`\s`), restricted to the whitespace characters Lean
knows; agrees with JS on the ASCII whitespace appearing in the feed. -/
def isSpaceChar (c : Char) : Bool := c.isWhitespace

/-- JS word-character test (`\w` = `[A-Za-z0-9_]`). -/
def isWordChar (c : Char) : Bool := c.isAlphanum || c == '_'

/-- `.replace(/[^\w\s]/g, '')`: delete every character that is neither a word
character nor whitespace. -/
def stripPunct (cs : List Char) : List Char :=
  cs.filter (fun c => isWordChar c || isSpaceChar c)

/-- Helper for `collapseWs`: the `Bool` records whether the previous character
was part of a whitespace run already replaced by `' '`. -/
def collapseAux : Bool → List Char → List Char
  | _, [] => []
  | inRun, c :: rest =>
    if isSpaceChar c then
      if inRun then collapseAux true rest else ' ' :: collapseAux true rest
    else c :: collapseAux false rest

/-- `.replace(/\s+/g, ' ')`: collapse each maximal whitespace run to one blank. -/
def collapseWs (cs : List Char) : List Char := collapseAux false cs

/-- JS `String.prototype.trim`: drop leading and trailing whitespace. -/
def jsTrim (cs : List Char) : List Char :=
  ((cs.dropWhile isSpaceChar).reverse.dropWhile isSpaceChar).reverse

/-- `s.trim()` on strings. -/
def trimS (s : String) : String := ⟨jsTrim s.toList⟩

/-- `s.toLowerCase()` on strings. -/
def toLowerS (s : String) : String := ⟨s.toList.map Char.toLower⟩

/-- Title normalisation of the content pass (script.js:79 / part_000:201):
`(event.event_title || '').trim().toLowerCase().replace(/[^\w\s]/g, '').replace(/\s+/g, ' ')`. -/
def normTitle (s : String) : String :=
  ⟨collapseWs (stripPunct (toLowerS (trimS s)).toList)⟩

/-- Numeric value of a digit list (most significant first). -/
def natOfDigits (ds : List Char) : Nat :=
  ds.foldl (fun n c => 10 * n + (c.toNat - 48)) 0

/-- JS `parseFloat`: skip leading whitespace, optional sign, longest numeric
prefix `digits[.digits][e|E[sign]digits]`; `none` models `NaN` (no digits at
all).  Finite values only (`"Infinity"` is outside the model; the feed's
coordinate strings are plain decimals). -/
def parseFloat (s : String) : Option Rat :=
  let cs := s.toList.dropWhile isSpaceChar
  let (sgn, cs) : Rat × List Char :=
    match cs with
    | '-' :: r => (-1, r)
    | '+' :: r => (1, r)
    | r => (1, r)
  let ip := cs.takeWhile Char.isDigit
  let cs := cs.dropWhile Char.isDigit
  let (fp, cs) : List Char × List Char :=
    match cs with
    | '.' :: r => (r.takeWhile Char.isDigit, r.dropWhile Char.isDigit)
    | r => ([], r)
  if ip.isEmpty && fp.isEmpty then none
  else
    let mant : Rat := (natOfDigits ip : Rat) + (natOfDigits fp : Rat) / ((10 : Rat) ^ fp.length)
    let scaled : Rat :=
      match cs with
      | e :: r =>
        if e == 'e' || e == 'E' then
          match r with
          | '-' :: r2 =>
            let ds := r2.takeWhile Char.isDigit
            if ds.isEmpty then mant else mant / ((10 : Rat) ^ natOfDigits ds)
          | '+' :: r2 =>
            let ds := r2.takeWhile Char.isDigit
            if ds.isEmpty then mant else mant * ((10 : Rat) ^ natOfDigits ds)
          | r2 =>
            let ds := r2.takeWhile Char.isDigit
            if ds.isEmpty then mant else mant * ((10 : Rat) ^ natOfDigits ds)
        else mant
      | [] => mant
    some (sgn * scaled)

/-- `x.toFixed(4)` as an integer count of ten-thousandths (round half away
from zero); two coordinates produce the same `toFixed(4)` string iff they
produce the same `round4` value (up to the immaterial `-0.0000` edge case). -/
def round4 (q : Rat) : Int :=
  if 0 ≤ q then (q * 10000 + 1/2).floor else -((-q) * 10000 + 1/2).floor

/-- Coordinate component of the content key:
`parseFloat(event.latitude || 0).toFixed(4)` (script.js:81).  A falsy (empty)
field parses as the number `0`; a `NaN` parse yields the literal key text
`"NaN"`, modelled as `none`. -/
def coordBucket (s : String) : Option Int :=
  if s = "" then some 0 else (parseFloat s).map round4

/-- A scraped event record as stored in `events.json` / `past_events.json`,
with the fields the pipeline reads.  `crawled_at` is modelled by its parsed
epoch-milliseconds value (see the header comment). -/
structure RawEvent where
  event_id : String
  event_title : String
  event_category : String
  event_date_utc : String
  latitude : String
  longitude : String
  crawled_at : Int
deriving DecidableEq, Repr

/-- Replacement policy of the identity pass (script.js:68):
`new Date(event.crawled_at || 0) > new Date(existing.crawled_at || 0)` —
the incoming record replaces the stored one only when strictly newer. -/
def choose (s e : RawEvent) : RawEvent :=
  if s.crawled_at < e.crawled_at then e else s

/-- Association-list lookup (JS `Map.get`). -/
def lookupA : List (String × RawEvent) → String → Option RawEvent
  | [], _ => none
  | (k', v) :: m, k => if k' = k then some v else lookupA m k

/-- JS `Map.set`-with-policy: replace the stored value in place (the key keeps
its original insertion position) or append a fresh binding at the end. -/
def updateAssoc : List (String × RawEvent) → String → RawEvent → List (String × RawEvent)
  | [], k, e => [(k, e)]
  | (k', v) :: m, k, e =>
    if k' = k then (k', choose v e) :: m else (k', v) :: updateAssoc m k e

/-- One step of the identity pass (script.js:64-72): records whose id is
missing or whitespace-only (`eventId && eventId.trim() !== ''` fails) are
silently skipped. -/
def identStep (m : List (String × RawEvent)) (e : RawEvent) : List (String × RawEvent) :=
  if trimS e.event_id = "" then m else updateAssoc m e.event_id e

/-- Identity pass of the deduplicator: fold all records through the
`event_id`-keyed map and read the surviving records back in `Map.values()`
(insertion) order. -/
def identityPass (l : List RawEvent) : List RawEvent :=
  (l.foldl identStep []).map Prod.snd

/-- The fuzzy content key (script.js:79-83):
`normalizedTitle|date.substring(0,10)|lat.toFixed(4)|lon.toFixed(4)`.
Since the normalised title contains no `|` and the coordinate components are
`|`-free (`toFixed` output or `"NaN"`), the concatenated key string determines
this tuple and vice versa. -/
def contentKey (e : RawEvent) : String × String × Option Int × Option Int :=
  (normTitle e.event_title, (⟨e.event_date_utc.toList.take 10⟩ : String),
   coordBucket e.latitude, coordBucket e.longitude)

/-- Content pass of the deduplicator (script.js:74-89): keep a record when its
key is unseen AND its normalised title is truthy, marking the key seen only in
that case. -/
def contentPassAux : List (String × String × Option Int × Option Int) → List RawEvent → List RawEvent
  | _, [] => []
  | seen, e :: rest =>
    if contentKey e ∉ seen ∧ normTitle e.event_title ≠ "" then
      e :: contentPassAux (contentKey e :: seen) rest
    else
      contentPassAux seen rest

/-- Content pass, started with no key seen. -/
def contentPass (l : List RawEvent) : List RawEvent := contentPassAux [] l

/-- The two-phase deduplicator: identity pass then content pass
(script.js:58-89). -/
def dedupe (l : List RawEvent) : List RawEvent := contentPass (identityPass l)

/-- Replace the first occurrence of `pat` in `s` by `rep` (JS
`String.prototype.replace` with a string pattern). -/
def replaceFirst (pat rep : List Char) : List Char → List Char
  | [] => []
  | c :: rest =>
    if pat.isPrefixOf (c :: rest) then rep ++ (c :: rest).drop pat.length
    else c :: replaceFirst pat rep rest

/-- Repair of malformed timezone suffixes (part_000:256-259): a date string
containing `+00:00Z` has that first occurrence replaced by `Z` before parsing
(the `includes` guard is subsumed: replacement is the identity otherwise). -/
def fixDate (s : String) : String :=
  ⟨replaceFirst "+00:00Z".toList "Z".toList s.toList⟩

/-- Gregorian leap year. -/
def isLeap (y : Nat) : Bool := (y % 4 == 0 && y % 100 != 0) || y % 400 == 0

/-- Days in a Gregorian month. -/
def daysInMonth (y m : Nat) : Nat :=
  if m = 2 then (if isLeap y then 29 else 28)
  else if m = 4 ∨ m = 6 ∨ m = 9 ∨ m = 11 then 30 else 31

/-- Days from 1970-01-01 to `y-m-d` (civil-from-days inverse, valid for the
years ≥ 1600 the parser admits). -/
def daysFromCivil (y m d : Nat) : Int :=
  let y' := if m ≤ 2 then y - 1 else y
  let era := y' / 400
  let yoe := y' % 400
  let mp := if 2 < m then m - 3 else m + 9
  let doy := (153 * mp + 2) / 5 + d - 1
  let doe := yoe * 365 + yoe / 4 - yoe / 100 + doy
  (era * 146097 + doe : Int) - 719468

/-- Read exactly `n` leading decimal digits as a number. -/
def takeDigits (n : Nat) (cs : List Char) : Option (Nat × List Char) :=
  let ds := cs.take n
  if ds.length = n ∧ ds.all Char.isDigit then some (natOfDigits ds, cs.drop n) else none

/-- Milliseconds from an optional fractional-seconds digit list (`.sss`,
first three digits significant, as in JS). -/
def fracMillis (ds : List Char) : Nat :=
  natOfDigits ((ds.take 3) ++ List.replicate (3 - ds.length) '0')

/-- Timezone suffix in minutes east of UTC: `Z` or `±HH:MM`.  An absent
suffix on a date-time is local time in JS and outside this model. -/
def parseTz (cs : List Char) : Option Int :=
  match cs with
  | ['Z'] => some 0
  | '+' :: r => do
    let (h, r) ← takeDigits 2 r
    match r with
    | ':' :: r2 => do
      let (mi, r3) ← takeDigits 2 r2
      if r3 = [] ∧ h ≤ 23 ∧ mi ≤ 59 then some ((h * 60 + mi : Nat) : Int) else none
    | _ => none
  | '-' :: r => do
    let (h, r) ← takeDigits 2 r
    match r with
    | ':' :: r2 => do
      let (mi, r3) ← takeDigits 2 r2
      if r3 = [] ∧ h ≤ 23 ∧ mi ≤ 59 then some (-((h * 60 + mi : Nat) : Int)) else none
    | _ => none
  | _ => none

/-- `new Date(s).getTime()` for the ISO-8601 UTC strings of the feed
(`YYYY-MM-DD` is UTC midnight, as in JS); `none` models an invalid date
(`NaN` timestamp).  Date-times lacking a timezone suffix, and years < 1600,
are outside the model. -/
def parseDate (s : String) : Option Int := do
  let cs := s.toList
  let (y, cs) ← takeDigits 4 cs
  let cs ← match cs with | '-' :: r => some r | _ => none
  let (mo, cs) ← takeDigits 2 cs
  let cs ← match cs with | '-' :: r => some r | _ => none
  let (d, cs) ← takeDigits 2 cs
  if 1600 ≤ y ∧ 1 ≤ mo ∧ mo ≤ 12 ∧ 1 ≤ d ∧ d ≤ daysInMonth y mo then
    match cs with
    | [] => some (daysFromCivil y mo d * 86400000)
    | 'T' :: r => do
      let (hh, r) ← takeDigits 2 r
      let r ← match r with | ':' :: r2 => some r2 | _ => none
      let (mi, r) ← takeDigits 2 r
      let r ← match r with | ':' :: r2 => some r2 | _ => none
      let (ss, r) ← takeDigits 2 r
      let (ms, r) : Nat × List Char :=
        match r with
        | '.' :: r2 => (fracMillis (r2.takeWhile Char.isDigit), r2.dropWhile Char.isDigit)
        | _ => (0, r)
      let tz ← parseTz r
      if hh ≤ 23 ∧ mi ≤ 59 ∧ ss ≤ 59 then
        some (daysFromCivil y mo d * 86400000
          + ((hh * 3600 + mi * 60 + ss) * 1000 + ms : Nat) - tz * 60000)
      else none
    | _ => none
  else none

/-- A preprocessed event as built at part_000:268-274: the raw record spread
with coerced numeric coordinates, a parsed (or defaulted) event timestamp and
the derived `hasValidCoords` flag. -/
structure PEvent where
  event_id : String
  event_title : String
  event_category : String
  event_date_utc : String
  latitude : Rat
  longitude : Rat
  event_date : Int
  crawled_at : Int
  hasValidCoords : Bool
deriving DecidableEq, Repr

/-- Coordinate coercion (part_000:235-253): null/undefined/empty ⇒ `0`,
otherwise `parseFloat`, with a `NaN` parse logged and coerced to `0`. -/
def sanitizeCoord (s : String) : Rat :=
  if s = "" then 0 else (parseFloat s).getD 0

/-- Preprocessing of one record (part_000:230-274); `now` is the run's
current time, the default for an unparseable event date. -/
def process (now : Int) (e : RawEvent) : PEvent :=
  let lat := sanitizeCoord e.latitude
  let lon := sanitizeCoord e.longitude
  { event_id := e.event_id
    event_title := e.event_title
    event_category := e.event_category
    event_date_utc := e.event_date_utc
    latitude := lat
    longitude := lon
    event_date := (parseDate (fixDate e.event_date_utc)).getD now
    crawled_at := e.crawled_at
    hasValidCoords := decide (lat ≠ 0) && decide (lon ≠ 0) }

/-- Retention filter (part_000:279-284): keep exactly the events with a
truthy, non-blank title (coordinates are optional). -/
def titleOk (e : PEvent) : Bool :=
  decide (e.event_title ≠ "") && decide (trimS e.event_title ≠ "")

/-- The preprocessing stage: map every deduplicated record through `process`
and keep those passing `titleOk` (the subsequent in-place sort by date only
permutes and is omitted). -/
def preprocess (now : Int) (l : List RawEvent) : List PEvent :=
  (l.map (process now)).filter titleOk

/-- One full load: merge + two-phase dedup + preprocessing
(`loadDisasterData`). -/
def pipeline (now : Int) (l : List RawEvent) : List PEvent :=
  preprocess now (dedupe l)

/-- Cluster centroid latitude: arithmetic mean of member latitudes,
recomputed per membership test (script.js:226). -/
def centroidLat (c : List PEvent) : Rat := (c.map (·.latitude)).sum / mkRat c.length 1

/-- Cluster centroid longitude. -/
def centroidLng (c : List PEvent) : Rat := (c.map (·.longitude)).sum / mkRat c.length 1

/-- Squared degree-space Euclidean distance from an event to a cluster's
centroid; the source compares `Math.sqrt(distSq) <= radius`, embedded as
`distSq ≤ radius*radius` (equivalent for the nonnegative radii used). -/
def distSq (e : PEvent) (c : List PEvent) : Rat :=
  (e.latitude - centroidLat c) * (e.latitude - centroidLat c)
    + (e.longitude - centroidLng c) * (e.longitude - centroidLng c)

/-- Scan the cluster list in order and add the event to the first cluster
within `r` of its current centroid (member appended at the end), or fail. -/
def tryPlace (r : Rat) (e : PEvent) : List (List PEvent) → Option (List (List PEvent))
  | [] => none
  | c :: cs =>
    if distSq e c ≤ r * r then some ((c ++ [e]) :: cs)
    else (tryPlace r e cs).map (c :: ·)

/-- Greedy placement of one event (script.js:222-246): join the first
qualifying cluster, else append a fresh singleton cluster. -/
def place (r : Rat) (cs : List (List PEvent)) (e : PEvent) : List (List PEvent) :=
  (tryPlace r e cs).getD (cs ++ [[e]])

/-- The greedy single-pass clustering primitive, parameterised by radius. -/
def greedyCluster (r : Rat) (l : List PEvent) : List (List PEvent) :=
  l.foldl (place r) []

/-- Descriptive-statistics pass (`updateStats`, part_000:441-468): radius 1.0
over the whole currently-displayed list. -/
def statsClusters (l : List PEvent) : List (List PEvent) := greedyCluster 1 l

/-- 30 days in milliseconds; `d.setDate(d.getDate() - 30)` is modelled as
subtracting exactly 30 days of milliseconds. -/
def thirtyDaysMs : Int := 30 * 86400000

/-- 7 days in milliseconds. -/
def weekMs : Int := 7 * 86400000

/-- Input subset of the risk pass (part_000:530-535): events of the last 30
days by parsed event date. -/
def riskInput (now : Int) (l : List PEvent) : List PEvent :=
  l.filter (fun e => decide (now - thirtyDaysMs ≤ e.event_date))

/-- Radius of the risk pass (part_000:546). -/
def riskRadius : Rat := 1/2

/-- Clusters produced by the risk pass over the recent subset. -/
def riskPassClusters (now : Int) (l : List PEvent) : List (List PEvent) :=
  greedyCluster riskRadius (riskInput now l)

/-- The timestamp the risk filter re-derives per member (part_000:580):
`new Date(event.event_date_utc || event.crawled_at)`; `none` models an
invalid (NaN) date, which can never satisfy `daysDiff <= 7`. -/
def riskTime (e : PEvent) : Option Int :=
  if e.event_date_utc ≠ "" then parseDate e.event_date_utc else some e.crawled_at

/-- Membership in the cluster's "recent week" (part_000:579-583):
`(now - eventDate) / 86400000 <= 7`. -/
def isRecentWeek (now : Int) (e : PEvent) : Bool :=
  match riskTime e with
  | some t => decide (now - t ≤ weekMs)
  | none => false

/-- The risk-qualification test (part_000:576-587): at least 30 members in
total and at least 5 members in the last week. -/
def riskQualifies (now : Int) (c : List PEvent) : Bool :=
  decide (30 ≤ c.length) && decide (5 ≤ (c.filter (isRecentWeek now)).length)

/-- The qualifying `RiskCluster`s among the clusters of the risk pass. -/
def riskClusters (now : Int) (recent : List PEvent) : List (List PEvent) :=
  (greedyCluster riskRadius recent).filter (riskQualifies now)

/-! ## Basic lemmas -/

lemma parseFloat_empty : parseFloat "" = none := by decide

/-- The coerced coordinate is nonzero exactly when the raw string parses to a
nonzero (non-NaN) number. -/
lemma sanitizeCoord_ne_zero (s : String) :
    sanitizeCoord s ≠ 0 ↔ ∃ x, parseFloat s = some x ∧ x ≠ 0 := by
  unfold sanitizeCoord
  by_cases h : s = ""
  · subst h
    simp [parseFloat_empty]
  · simp only [h, if_false]
    cases hx : parseFloat s with
    | none => simp
    | some x => simp

/-- Sample record of Scenario D: empty latitude, longitude `"12.3"`. -/
def scenarioD : RawEvent := ⟨"ev1", "Some event", "Flood", "2025-07-08", "", "12.3", 0⟩

/-- C5: For every sanitized event, a null, empty, or non-numeric raw latitude
or longitude is coerced to 0, and `hasValidCoords` is true iff both parsed
coordinates are non-zero, non-NaN numbers; an event with raw latitude `""`
and raw longitude `"12.3"` sanitizes to latitude 0 with
`hasValidCoords = false`. -/
theorem spec_C5_coordinateSafety :
    (∀ (now : Int) (e : RawEvent),
      ((e.latitude = "" ∨ parseFloat e.latitude = none) → (process now e).latitude = 0) ∧
      ((e.longitude = "" ∨ parseFloat e.longitude = none) → (process now e).longitude = 0) ∧
      ((process now e).hasValidCoords = true ↔
        (∃ x, parseFloat e.latitude = some x ∧ x ≠ 0) ∧
        (∃ y, parseFloat e.longitude = some y ∧ y ≠ 0))) ∧
    (process 0 scenarioD).latitude = 0 ∧ (process 0 scenarioD).hasValidCoords = false := by
  refine ⟨fun now e => ⟨?_, ?_, ?_⟩, by decide, by decide⟩
  · rintro (h | h) <;> simp [process, sanitizeCoord, h]
  · rintro (h | h) <;> simp [process, sanitizeCoord, h]
  · show (decide (sanitizeCoord e.latitude ≠ 0) && decide (sanitizeCoord e.longitude ≠ 0)) = true ↔ _
    rw [Bool.and_eq_true, decide_eq_true_iff, decide_eq_true_iff,
      sanitizeCoord_ne_zero, sanitizeCoord_ne_zero]

/-- Closed witness for C5 at Scenario D's record: the empty raw latitude is
coerced to 0. -/
theorem spec_C5_coordinateSafety_witness :
    (process 0 scenarioD).latitude = 0 :=
  (spec_C5_coordinateSafety.1 0 scenarioD).1 (Or.inl rfl)

/-- First of two fire-category records 15 km apart (0.135°) in the same
month, with identical titles. -/
def fireA : RawEvent :=
  ⟨"fa", "Forest fire near town", "Fire in built environment",
   "2025-07-01", "10.0000", "20.0000", 0⟩

/-- Second fire-category record, 15 km north of `fireA`, two weeks later in
the same month. -/
def fireB : RawEvent :=
  ⟨"fb", "Forest fire near town", "Fire in built environment",
   "2025-07-15", "10.1350", "20.0000", 0⟩

/-- First of two otherwise-identical non-fire records 15 km apart. -/
def quakeA : RawEvent :=
  ⟨"qa", "Strong earthquake", "Earthquake", "2025-07-01", "10.0000", "20.0000", 0⟩

/-- Second non-fire record, 15 km north of `quakeA`. -/
def quakeB : RawEvent :=
  ⟨"qb", "Strong earthquake", "Earthquake", "2025-07-15", "10.1350", "20.0000", 0⟩

/-- C4 counterexample: the content key has no category-dependent granularity.
Two fire-category records 15 km apart in the same month with identical
normalized titles do NOT collapse in the content pass — both survive the
deduplicator, refuting the claimed ~0.2°/year-month coarse bucketing for
fire records. -/
theorem spec_C4_fireGranularity_counterexample :
    normTitle fireA.event_title = normTitle fireB.event_title ∧
    fireA.event_date_utc.take 7 = fireB.event_date_utc.take 7 ∧
    dedupe [fireA, fireB] = [fireA, fireB] ∧
    (dedupe [fireA, fireB]).length ≠ 1 := by
  refine ⟨by decide, by decide, by decide, by decide⟩

/-- C4 (amended): the content key is category-independent — every record,
fire-related or not, is bucketed with `toFixed(4)` (≈0.0001°) coordinates and
a day-level (first 10 characters) date; consequently two fire-category
records 15 km apart in the same month do not collapse in the content pass,
exactly as two otherwise-identical non-fire records 15 km apart do not. -/
theorem spec_C4_fireGranularity :
    (∀ (e : RawEvent) (c : String),
      contentKey { e with event_category := c } = contentKey e) ∧
    dedupe [fireA, fireB] = [fireA, fireB] ∧
    dedupe [quakeA, quakeB] = [quakeA, quakeB] := by
  refine ⟨fun e c => rfl, by decide, by decide⟩

/-! ## Clustering lemmas -/

/-- A successful `tryPlace` keeps the number of clusters. -/
lemma tryPlace_length {r : Rat} {e : PEvent} :
    ∀ {cs cs' : List (List PEvent)}, tryPlace r e cs = some cs' →
      cs'.length = cs.length := by
  intro cs
  induction cs with
  | nil => intro cs' h; simp [tryPlace] at h
  | cons c cs ih =>
    intro cs' h
    unfold tryPlace at h
    split at h
    · cases h; simp
    · cases hp : tryPlace r e cs with
      | none => rw [hp] at h; simp at h
      | some cs'' =>
        rw [hp] at h
        cases h
        simp [ih hp]

/-- Placing one event keeps or increments the number of clusters. -/
lemma place_length (r : Rat) (cs : List (List PEvent)) (e : PEvent) :
    (place r cs e).length = cs.length ∨ (place r cs e).length = cs.length + 1 := by
  unfold place
  cases hp : tryPlace r e cs with
  | none => right; simp
  | some cs' => left; simpa using tryPlace_length hp

/-- Placing never decreases the number of clusters. -/
lemma length_le_place (r : Rat) (cs : List (List PEvent)) (e : PEvent) :
    cs.length ≤ (place r cs e).length := by
  rcases place_length r cs e with h | h <;> omega

/-- Folding the greedy placement never decreases the number of clusters. -/
lemma length_le_foldl_place (r : Rat) (l : List PEvent) :
    ∀ cs : List (List PEvent), cs.length ≤ (l.foldl (place r) cs).length := by
  induction l with
  | nil => intro cs; simp
  | cons e l ih =>
    intro cs
    calc cs.length ≤ (place r cs e).length := length_le_place r cs e
    _ ≤ _ := ih (place r cs e)

/-- Folding the greedy placement adds at most one cluster per event. -/
lemma foldl_place_length_le (r : Rat) (l : List PEvent) :
    ∀ cs : List (List PEvent), (l.foldl (place r) cs).length ≤ cs.length + l.length := by
  induction l with
  | nil => intro cs; simp
  | cons e l ih =>
    intro cs
    calc (List.foldl (place r) (place r cs e) l).length
        ≤ (place r cs e).length + l.length := ih (place r cs e)
    _ ≤ cs.length + (e :: l).length := by
        rcases place_length r cs e with h | h <;> (simp only [h, List.length_cons]; omega)

/-- Fixed four-event input (1-D, along the latitude axis) on which the greedy
clustering produces strictly more clusters at the larger radius. -/
def cEv (la : Rat) : PEvent := ⟨"", "", "", "", la, 0, 0, 0, true⟩

/-- Input sequence 2, 5, 0, 7: with radius 2 the passes merge 0 into the
cluster at 2 and 7 into the cluster at 5 (2 clusters); with radius 3 the
first two events merge, dragging the centroid to 3.5, after which 0 and 7
each open new clusters (3 clusters). -/
def c7input : List PEvent := [cEv 2, cEv 5, cEv 0, cEv 7]

/-- C7 counterexample: for a fixed input, the greedy clustering with the
smaller radius 2 produces strictly FEWER clusters than with radius 3 —
cluster count is not monotone in the radius. -/
theorem spec_C7_radiusMonotonicity_counterexample :
    (2 : Rat) < 3 ∧
    (greedyCluster 2 c7input).length = 2 ∧
    (greedyCluster 3 c7input).length = 3 ∧
    ¬((greedyCluster 3 c7input).length ≤ (greedyCluster 2 c7input).length) := by
  refine ⟨by norm_num, by with_unfolding_all decide, by with_unfolding_all decide,
    by with_unfolding_all decide⟩

/-- C7 (amended): the greedy single-pass clustering is NOT radius-monotone:
there is a fixed input sequence and radii R1 < R2 (both nonnegative) for
which R1 yields strictly fewer clusters than R2.  What does hold for every
radius and every nonempty input is that the cluster count lies between 1 and
the number of events. -/
theorem spec_C7_radiusMonotonicity :
    (∃ (l : List PEvent) (r1 r2 : Rat), 0 ≤ r1 ∧ r1 < r2 ∧
      (greedyCluster r1 l).length < (greedyCluster r2 l).length) ∧
    (∀ (r : Rat) (l : List PEvent), l ≠ [] →
      1 ≤ (greedyCluster r l).length ∧ (greedyCluster r l).length ≤ l.length) := by
  constructor
  · exact ⟨c7input, 2, 3, by norm_num, by norm_num, by with_unfolding_all decide⟩
  · intro r l hl
    constructor
    · cases l with
      | nil => exact absurd rfl hl
      | cons e l =>
        have h1 : (place r [] e).length = 1 := by simp [place, tryPlace]
        have := length_le_foldl_place r l (place r [] e)
        unfold greedyCluster
        simp only [List.foldl_cons]
        omega
    · have := foldl_place_length_le r l []
      unfold greedyCluster
      simpa using this

/-- Closed witness for the amended C7 on a one-event input: exactly one
cluster forms. -/
theorem spec_C7_radiusMonotonicity_witness :
    1 ≤ (greedyCluster 1 [cEv 0]).length ∧ (greedyCluster 1 [cEv 0]).length ≤ 1 := by
  have h := spec_C7_radiusMonotonicity.2 1 [cEv 0] (by decide)
  simpa using h

/-- A successful `tryPlace` keeps all old members and adds the new event. -/
lemma mem_flatten_tryPlace {r : Rat} {x : PEvent} :
    ∀ {cs cs' : List (List PEvent)}, tryPlace r x cs = some cs' →
      ∀ y, (y ∈ cs.flatten ∨ y = x) → y ∈ cs'.flatten := by
  intro cs
  induction cs with
  | nil => intro cs' h; simp [tryPlace] at h
  | cons c cs ih =>
    intro cs' h y hy
    unfold tryPlace at h
    split at h
    · cases h
      simp only [List.flatten_cons, List.mem_append, List.mem_singleton] at hy ⊢
      tauto
    · cases hp : tryPlace r x cs with
      | none => rw [hp] at h; simp at h
      | some cs'' =>
        rw [hp] at h
        cases h
        simp only [List.flatten_cons, List.mem_append] at hy ⊢
        rcases hy with (hy | hy) | hy
        · exact Or.inl hy
        · exact Or.inr (ih hp y (Or.inl hy))
        · exact Or.inr (ih hp y (Or.inr hy))

/-- Greedy placement keeps all old members and adds the new event. -/
lemma mem_flatten_place {r : Rat} {cs : List (List PEvent)} {x : PEvent} :
    ∀ y, (y ∈ cs.flatten ∨ y = x) → y ∈ (place r cs x).flatten := by
  intro y hy
  unfold place
  cases hp : tryPlace r x cs with
  | none =>
    simp only [Option.getD_none, List.flatten_append, List.flatten_cons, List.flatten_nil]
    rcases hy with hy | hy
    · exact List.mem_append_left _ hy
    · subst hy; simp
  | some cs' => exact mem_flatten_tryPlace hp y hy

/-- Every input event ends up in the flattened cluster list. -/
lemma mem_flatten_foldl_place (r : Rat) :
    ∀ (l : List PEvent) (cs : List (List PEvent)) (y : PEvent),
      (y ∈ cs.flatten ∨ y ∈ l) → y ∈ (l.foldl (place r) cs).flatten := by
  intro l
  induction l with
  | nil => intro cs y hy; simpa using hy.resolve_right (by simp)
  | cons e l ih =>
    intro cs y hy
    simp only [List.foldl_cons]
    apply ih
    rcases hy with hy | hy
    · exact Or.inl (mem_flatten_place y (Or.inl hy))
    · rcases List.mem_cons.mp hy with hy | hy
      · exact Or.inl (mem_flatten_place y (Or.inr hy))
      · exact Or.inr hy

/-- Every event of the input of the greedy clustering is a member of one of
the produced clusters — there is no coordinate-validity exclusion. -/
lemma mem_greedyCluster {r : Rat} {l : List PEvent} {e : PEvent} (he : e ∈ l) :
    ∃ c, c ∈ greedyCluster r l ∧ e ∈ c := by
  have h := mem_flatten_foldl_place r l [] e (Or.inr he)
  rw [List.mem_flatten] at h
  obtain ⟨c, hc, hec⟩ := h
  exact ⟨c, hc, hec⟩

/-- The raw record behind the C8 counterexample: empty coordinate strings. -/
def noCoordRaw : RawEvent := ⟨"nc", "No coords event", "Flood", "", "", "", 0⟩

/-- Its preprocessed form: coordinates coerced to (0,0), `hasValidCoords`
false, event date defaulted to the load time 0. -/
def noCoordEv : PEvent := process 0 noCoordRaw

/-- C8 counterexample: an event without valid coordinates is NOT excluded
from the clustering passes — on the one-event input it is a member of a
cluster of the radius-1.0 statistics pass and of the radius-0.5 risk pass
(placed at the (0,0) sentinel). -/
theorem spec_C8_coordExclusion_counterexample :
    noCoordEv.hasValidCoords = false ∧
    (∃ c, c ∈ statsClusters [noCoordEv] ∧ noCoordEv ∈ c) ∧
    (∃ c, c ∈ riskPassClusters 0 [noCoordEv] ∧ noCoordEv ∈ c) := by
  refine ⟨by with_unfolding_all decide,
    ⟨[noCoordEv], by with_unfolding_all decide, by with_unfolding_all decide⟩,
    ⟨[noCoordEv], by with_unfolding_all decide, by with_unfolding_all decide⟩⟩

/-- C8 (amended): events lacking valid coordinates are NOT excluded from the
two clustering passes; every event fed to a pass — in particular every event
with `hasValidCoords = false`, which sits at the (0,0) sentinel — is a member
of exactly the clusters the greedy scan assigns it to (at least one).  Only
the map-marker rendering skips such events. -/
theorem spec_C8_coordExclusion :
    ∀ (now : Int) (l : List PEvent) (e : PEvent), e.hasValidCoords = false →
      (e ∈ l → ∃ c, c ∈ statsClusters l ∧ e ∈ c) ∧
      (e ∈ riskInput now l → ∃ c, c ∈ riskPassClusters now l ∧ e ∈ c) := by
  intro now l e _
  exact ⟨fun he => mem_greedyCluster he, fun he => mem_greedyCluster he⟩

/-- Closed witness for the amended C8: the coordinate-less event is clustered
by both passes on a concrete one-event input. -/
theorem spec_C8_coordExclusion_witness :
    (∃ c, c ∈ statsClusters [noCoordEv] ∧ noCoordEv ∈ c) ∧
    (∃ c, c ∈ riskPassClusters 0 [noCoordEv] ∧ noCoordEv ∈ c) :=
  ⟨(spec_C8_coordExclusion 0 [noCoordEv] noCoordEv (by with_unfolding_all decide)).1
      (by with_unfolding_all decide),
   (spec_C8_coordExclusion 0 [noCoordEv] noCoordEv (by with_unfolding_all decide)).2
      (by with_unfolding_all decide)⟩

/-- C1: a cluster of the risk pass qualifies as a RiskCluster iff it has at
least 30 members in total and at least 5 members within the last 7 days; a
29-member cluster never qualifies, a 30-member cluster with exactly 5 recent
members qualifies. -/
theorem spec_C1_riskThreshold :
    ∀ (now : Int) (recent : List PEvent) (c : List PEvent),
      c ∈ greedyCluster riskRadius recent →
      (c ∈ riskClusters now recent ↔
        30 ≤ c.length ∧ 5 ≤ (c.filter (isRecentWeek now)).length) ∧
      (c.length = 29 → c ∉ riskClusters now recent) ∧
      (c.length = 30 → (c.filter (isRecentWeek now)).length = 5 →
        c ∈ riskClusters now recent) := by
  intro now recent c hc
  have key : c ∈ riskClusters now recent ↔
      30 ≤ c.length ∧ 5 ≤ (c.filter (isRecentWeek now)).length := by
    unfold riskClusters riskQualifies
    rw [List.mem_filter]
    simp [hc]
  refine ⟨key, ?_, ?_⟩
  · intro h29 hmem
    have h := (key.mp hmem).1
    omega
  · intro h30 h5
    exact key.mpr ⟨by omega, by omega⟩

/-- A member of the C1 witness cluster dated within the last week
(`event_date_utc` empty, so the risk filter falls back to `crawled_at`). -/
def riskRecentEv : PEvent := ⟨"r", "Recent event", "Flood", "", 10, 20, 0, 0, true⟩

/-- A member of the C1 witness cluster dated 100 days back. -/
def riskOldEv : PEvent := ⟨"o", "Old event", "Flood", "", 10, 20, 0, -8640000000, true⟩

/-- 30 co-located events, 5 of them within the last week. -/
def riskWitnessInput : List PEvent :=
  List.replicate 5 riskRecentEv ++ List.replicate 25 riskOldEv

/-- Sum of a constant-valued list of rationals. -/
lemma list_sum_const (a : Rat) :
    ∀ l : List Rat, (∀ x ∈ l, x = a) → l.sum = l.length * a := by
  intro l
  induction l with
  | nil => intro _; simp
  | cons x l ih =>
    intro h
    rw [List.sum_cons, ih (fun y hy => h y (List.mem_cons_of_mem _ hy)),
      h x (List.mem_cons_self _ _), List.length_cons]
    push_cast
    ring

/-- The centroid latitude of a nonempty cluster of co-located events is their
common latitude. -/
lemma centroidLat_colocated {a b : Rat} {c : List PEvent} (hne : c ≠ [])
    (hc : ∀ e ∈ c, e.latitude = a ∧ e.longitude = b) : centroidLat c = a := by
  unfold centroidLat
  have hcast : ((c.length : Rat)) ≠ 0 := by
    simpa using fun h => hne (List.length_eq_zero.mp h)
  rw [list_sum_const a _ (fun x hx => by
    obtain ⟨y, hy, hxy⟩ := List.mem_map.mp hx
    rw [← hxy]
    exact (hc y hy).1)]
  rw [List.length_map, Rat.mkRat_one]
  push_cast
  rw [mul_comm]
  exact mul_div_cancel_right₀ a hcast

/-- The centroid longitude of a nonempty cluster of co-located events is
their common longitude. -/
lemma centroidLng_colocated {a b : Rat} {c : List PEvent} (hne : c ≠ [])
    (hc : ∀ e ∈ c, e.latitude = a ∧ e.longitude = b) : centroidLng c = b := by
  unfold centroidLng
  have hcast : ((c.length : Rat)) ≠ 0 := by
    simpa using fun h => hne (List.length_eq_zero.mp h)
  rw [list_sum_const b _ (fun x hx => by
    obtain ⟨y, hy, hxy⟩ := List.mem_map.mp hx
    rw [← hxy]
    exact (hc y hy).2)]
  rw [List.length_map, Rat.mkRat_one]
  push_cast
  rw [mul_comm]
  exact mul_div_cancel_right₀ b hcast

/-- On a batch of co-located events the greedy scan grows one single
cluster: each event sits at distance 0 from the cluster's centroid. -/
lemma foldl_place_colocated (r a b : Rat) :
    ∀ (l : List PEvent) (acc : List PEvent),
      acc ≠ [] →
      (∀ e ∈ acc, e.latitude = a ∧ e.longitude = b) →
      (∀ e ∈ l, e.latitude = a ∧ e.longitude = b) →
      l.foldl (place r) [acc] = [acc ++ l] := by
  intro l
  induction l with
  | nil => intro acc _ _ _; simp
  | cons e l ih =>
    intro acc hne hacc hl
    have hdist : distSq e acc ≤ r * r := by
      unfold distSq
      rw [centroidLat_colocated hne hacc, centroidLng_colocated hne hacc,
        (hl e (List.mem_cons_self _ _)).1, (hl e (List.mem_cons_self _ _)).2]
      simpa using mul_self_nonneg r
    have hplace : place r [acc] e = [acc ++ [e]] := by
      simp [place, tryPlace, hdist]
    simp only [List.foldl_cons, hplace]
    rw [ih (acc ++ [e]) (by simp)
      (fun x hx => by
        rcases List.mem_append.mp hx with hx | hx
        · exact hacc x hx
        · rw [List.mem_singleton] at hx
          subst hx
          exact hl x (List.mem_cons_self _ _))
      (fun x hx => hl x (List.mem_cons_of_mem _ hx))]
    simp

/-- Clustering a nonempty batch of co-located events yields exactly one
cluster holding the whole input. -/
lemma greedyCluster_colocated (r a b : Rat) (l : List PEvent) (hl : l ≠ [])
    (hco : ∀ e ∈ l, e.latitude = a ∧ e.longitude = b) :
    greedyCluster r l = [l] := by
  cases l with
  | nil => exact absurd rfl hl
  | cons e l =>
    unfold greedyCluster
    simp only [List.foldl_cons]
    rw [show place r [] e = [[e]] by simp [place, tryPlace]]
    rw [foldl_place_colocated r a b l [e] (by simp)
      (fun x hx => by
        rw [List.mem_singleton] at hx
        subst hx
        exact hco x (List.mem_cons_self _ _))
      (fun x hx => hco x (List.mem_cons_of_mem _ hx))]
    simp

set_option maxRecDepth 4000 in
/-- Closed witness for C1: the single 30-member cluster with exactly 5
recent members qualifies as a RiskCluster. -/
theorem spec_C1_riskThreshold_witness :
    riskWitnessInput ∈ riskClusters 0 riskWitnessInput := by
  have hcl : greedyCluster riskRadius riskWitnessInput = [riskWitnessInput] := by
    apply greedyCluster_colocated riskRadius 10 20
    · simp [riskWitnessInput, riskRecentEv]
    · intro e he
      rcases List.mem_append.mp he with he | he <;>
        rw [List.eq_of_mem_replicate he] <;> exact ⟨rfl, rfl⟩
  have hmem : riskWitnessInput ∈ greedyCluster riskRadius riskWitnessInput := by
    rw [hcl]
    exact List.mem_singleton.mpr rfl
  exact (spec_C1_riskThreshold 0 riskWitnessInput riskWitnessInput hmem).2.2
    (by decide) (by decide)

/-- C6: sanitization/preprocessing drops a record only for a missing or blank
title — any input record with a non-blank title is retained (as its processed
form), with malformed coordinates coerced to 0 and an unparseable date
defaulted to the load time `now`. -/
theorem spec_C6_retention :
    ∀ (now : Int) (l : List RawEvent) (e : RawEvent), e ∈ l →
      trimS e.event_title ≠ "" →
      process now e ∈ preprocess now l ∧
      ((e.latitude = "" ∨ parseFloat e.latitude = none) → (process now e).latitude = 0) ∧
      ((e.longitude = "" ∨ parseFloat e.longitude = none) → (process now e).longitude = 0) ∧
      (parseDate (fixDate e.event_date_utc) = none → (process now e).event_date = now) := by
  intro now l e hmem htitle
  refine ⟨?_, ?_, ?_, ?_⟩
  · unfold preprocess
    rw [List.mem_filter]
    refine ⟨List.mem_map_of_mem _ hmem, ?_⟩
    unfold titleOk
    have hne : e.event_title ≠ "" := by
      intro h
      apply htitle
      rw [h]
      decide
    simp only [show (process now e).event_title = e.event_title from rfl]
    simp [hne, htitle]
  · rintro (h | h) <;> simp [process, sanitizeCoord, h]
  · rintro (h | h) <;> simp [process, sanitizeCoord, h]
  · intro h
    simp [process, h]

/-- Record with a valid title but empty coordinates and a malformed date. -/
def malformedRaw : RawEvent :=
  ⟨"mf", "Malformed but titled", "Flood", "not-a-date", "", "zzz", 3⟩

/-- Closed witness for C6: the malformed-field record is retained with
latitude 0 and event date defaulted. -/
theorem spec_C6_retention_witness :
    process 7 malformedRaw ∈ preprocess 7 [malformedRaw] ∧
    (process 7 malformedRaw).latitude = 0 ∧
    (process 7 malformedRaw).event_date = 7 := by
  have h := spec_C6_retention 7 [malformedRaw] malformedRaw (by decide)
    (by with_unfolding_all decide)
  exact ⟨h.1, h.2.1 (Or.inl rfl), h.2.2.2 (by with_unfolding_all decide)⟩

/-! ## Identity-pass lemmas -/

/-- `choose` never decreases the capture timestamp relative to the stored
record. -/
lemma le_choose_left (s e : RawEvent) : s.crawled_at ≤ (choose s e).crawled_at := by
  unfold choose
  split <;> omega

/-- `choose` never decreases the capture timestamp relative to the incoming
record. -/
lemma le_choose_right (s e : RawEvent) : e.crawled_at ≤ (choose s e).crawled_at := by
  unfold choose
  split <;> omega

lemma lookupA_updateAssoc_self (m : List (String × RawEvent)) (k : String) (e : RawEvent) :
    lookupA (updateAssoc m k e) k =
      some (match lookupA m k with | some v => choose v e | none => e) := by
  induction m with
  | nil => simp [updateAssoc, lookupA]
  | cons kv m ih =>
    obtain ⟨k', v⟩ := kv
    by_cases h : k' = k
    · subst h
      simp [updateAssoc, lookupA]
    · simp [updateAssoc, lookupA, h, ih]

lemma lookupA_updateAssoc_ne (m : List (String × RawEvent)) (k k' : String) (e : RawEvent)
    (h : k' ≠ k) : lookupA (updateAssoc m k e) k' = lookupA m k' := by
  induction m with
  | nil => simp [updateAssoc, lookupA, Ne.symm h]
  | cons kv m ih =>
    obtain ⟨k'', v⟩ := kv
    by_cases hk : k'' = k
    · subst hk
      simp [updateAssoc, lookupA, Ne.symm h]
    · simp only [updateAssoc, if_neg hk, lookupA]
      split
      · rfl
      · exact ih

/-- Selection step of the per-identifier fold: the survivor of the group. -/
def selStep (idv : String) (a : Option RawEvent) (e : RawEvent) : Option RawEvent :=
  if e.event_id = idv then
    match a with
    | some s => some (choose s e)
    | none => some e
  else a

/-- Survivor of all records with identifier `idv` in `l`, seeded by `acc`. -/
def groupFold (idv : String) (acc : Option RawEvent) (l : List RawEvent) : Option RawEvent :=
  l.foldl (selStep idv) acc

/-- The map built by the identity pass stores, at each non-blank identifier,
exactly the survivor of the `choose` fold over that identifier's group. -/
lemma lookupA_foldl_identStep (idv : String) (hid : trimS idv ≠ "") :
    ∀ (l : List RawEvent) (m : List (String × RawEvent)),
      lookupA (l.foldl identStep m) idv = groupFold idv (lookupA m idv) l := by
  intro l
  induction l with
  | nil => intro m; simp [groupFold]
  | cons e l ih =>
    intro m
    simp only [List.foldl_cons, groupFold]
    by_cases hskip : trimS e.event_id = ""
    · have hne : e.event_id ≠ idv := by
        intro h
        rw [h] at hskip
        exact hid hskip
      rw [show identStep m e = m from if_pos hskip]
      rw [ih m]
      simp [groupFold, selStep, hne]
    · rw [show identStep m e = updateAssoc m e.event_id e from if_neg hskip]
      by_cases heq : e.event_id = idv
      · subst heq
        rw [ih _]
        rw [lookupA_updateAssoc_self]
        simp only [groupFold, selStep, if_pos rfl]
        cases lookupA m e.event_id <;> rfl
      · rw [ih _]
        rw [lookupA_updateAssoc_ne _ _ _ _ (fun h => heq h.symm)]
        simp [groupFold, selStep, heq]

lemma groupFold_some (idv : String) (a : RawEvent) :
    ∀ l, ∃ s, groupFold idv (some a) l = some s := by
  intro l
  induction l generalizing a with
  | nil => exact ⟨a, rfl⟩
  | cons e l ih =>
    simp only [groupFold, List.foldl_cons, selStep]
    split
    · exact ih (choose a e)
    · exact ih a

lemma groupFold_le (idv : String) :
    ∀ (l : List RawEvent) (a s : RawEvent),
      groupFold idv (some a) l = some s → a.crawled_at ≤ s.crawled_at := by
  intro l
  induction l with
  | nil =>
    intro a s h
    cases h
    omega
  | cons e l ih =>
    intro a s h
    simp only [groupFold, List.foldl_cons, selStep] at h
    split at h
    · exact le_trans (le_choose_left a e) (ih (choose a e) s h)
    · exact ih a s h

/-- The survivor produced by the group fold captures at least as late as
every group member. -/
lemma groupFold_ge_members (idv : String) :
    ∀ (l : List RawEvent) (acc : Option RawEvent) (s : RawEvent),
      groupFold idv acc l = some s →
      ∀ x ∈ l, x.event_id = idv → x.crawled_at ≤ s.crawled_at := by
  intro l
  induction l with
  | nil => intro acc s _ x hx; simp at hx
  | cons e l ih =>
    intro acc s h x hx hxid
    simp only [groupFold, List.foldl_cons] at h
    rcases List.mem_cons.mp hx with hx | hx
    · subst hx
      have hsel : selStep idv acc x = some (match acc with
          | some a => choose a x | none => x) := by
        simp [selStep, hxid]
        cases acc <;> rfl
      rw [hsel] at h
      cases acc with
      | none => exact groupFold_le idv l x s h
      | some a => exact le_trans (le_choose_right a x) (groupFold_le idv l (choose a x) s h)
    · exact ih (selStep idv acc e) s h x hx hxid

lemma groupFold_of_mem (idv : String) :
    ∀ l : List RawEvent, (∃ x ∈ l, x.event_id = idv) →
      ∃ s, groupFold idv none l = some s := by
  intro l
  induction l with
  | nil => rintro ⟨x, hx, _⟩; simp at hx
  | cons e l ih =>
    rintro ⟨x, hx, hxid⟩
    simp only [groupFold, List.foldl_cons]
    by_cases he : e.event_id = idv
    · rw [show selStep idv none e = some e by simp [selStep, he]]
      exact groupFold_some idv e l
    · rw [show selStep idv none e = none by simp [selStep, he]]
      rcases List.mem_cons.mp hx with hx | hx
      · subst hx; exact absurd hxid he
      · exact ih ⟨x, hx, hxid⟩

/-- Invariant of the identity-pass map: each binding stores a record whose
identifier is the (non-blank) key, and keys are unique. -/
def GoodMap (m : List (String × RawEvent)) : Prop :=
  (∀ kv ∈ m, kv.2.event_id = kv.1 ∧ trimS kv.1 ≠ "") ∧ (m.map Prod.fst).Nodup

lemma updateAssoc_fst (k : String) (e : RawEvent) :
    ∀ m : List (String × RawEvent),
      (updateAssoc m k e).map Prod.fst =
        if k ∈ m.map Prod.fst then m.map Prod.fst else m.map Prod.fst ++ [k] := by
  intro m
  induction m with
  | nil => simp [updateAssoc]
  | cons kv m ih =>
    obtain ⟨k', v⟩ := kv
    by_cases h : k' = k
    · subst h
      simp [updateAssoc]
    · simp only [updateAssoc, if_neg h, List.map_cons, ih]
      by_cases hm : k ∈ m.map Prod.fst
      · simp [hm, Ne.symm h]
      · simp [hm, Ne.symm h]

lemma mem_updateAssoc (k : String) (e : RawEvent) :
    ∀ (m : List (String × RawEvent)) (kv : String × RawEvent),
      kv ∈ updateAssoc m k e →
      kv ∈ m ∨ kv = (k, e) ∨ ∃ v, (k, v) ∈ m ∧ kv = (k, choose v e) := by
  intro m
  induction m with
  | nil =>
    intro kv h
    simp only [updateAssoc, List.mem_singleton] at h
    exact Or.inr (Or.inl h)
  | cons kv' m ih =>
    intro kv h
    obtain ⟨k', v⟩ := kv'
    by_cases hk : k' = k
    · subst hk
      simp [updateAssoc] at h
      rcases h with h | h
      · exact Or.inr (Or.inr ⟨v, List.mem_cons_self _ _, h⟩)
      · exact Or.inl (List.mem_cons_of_mem _ h)
    · simp only [updateAssoc, if_neg hk, List.mem_cons] at h
      rcases h with h | h
      · exact Or.inl (h ▸ List.mem_cons_self _ _)
      · rcases ih kv h with h' | h' | ⟨v', hv', h'⟩
        · exact Or.inl (List.mem_cons_of_mem _ h')
        · exact Or.inr (Or.inl h')
        · exact Or.inr (Or.inr ⟨v', List.mem_cons_of_mem _ hv', h'⟩)

/-- `choose` returns one of its two arguments. -/
lemma choose_eq_or (s e : RawEvent) : choose s e = s ∨ choose s e = e := by
  unfold choose
  split
  · exact Or.inr rfl
  · exact Or.inl rfl

lemma goodMap_identStep {m : List (String × RawEvent)} (hm : GoodMap m) (e : RawEvent) :
    GoodMap (identStep m e) := by
  unfold identStep
  by_cases hskip : trimS e.event_id = ""
  · simpa [hskip] using hm
  · rw [if_neg hskip]
    obtain ⟨hvals, hnd⟩ := hm
    constructor
    · intro kv hkv
      rcases mem_updateAssoc _ _ _ _ hkv with h | h | ⟨v, hv, h⟩
      · exact hvals kv h
      · subst h
        exact ⟨rfl, hskip⟩
      · subst h
        rcases choose_eq_or v e with h' | h' <;> rw [h']
        · exact ⟨(hvals _ hv).1, hskip⟩
        · exact ⟨rfl, hskip⟩
    · rw [updateAssoc_fst]
      split
      · exact hnd
      · next hmem =>
        apply List.Nodup.append hnd (List.nodup_singleton _)
        simp [List.disjoint_right, hmem]

lemma goodMap_foldl (l : List RawEvent) :
    ∀ m : List (String × RawEvent), GoodMap m → GoodMap (l.foldl identStep m) := by
  induction l with
  | nil => intro m hm; exact hm
  | cons e l ih =>
    intro m hm
    exact ih _ (goodMap_identStep hm e)

lemma goodMap_nil : GoodMap [] := ⟨by simp, by simp⟩

/-- Records surviving the identity pass all carry a non-blank identifier. -/
lemma identityPass_id_nonblank {l : List RawEvent} :
    ∀ e ∈ identityPass l, trimS e.event_id ≠ "" := by
  intro e he
  unfold identityPass at he
  obtain ⟨⟨k, v⟩, hkv, hv⟩ := List.mem_map.mp he
  obtain ⟨hid, hk⟩ := (goodMap_foldl l [] goodMap_nil).1 _ hkv
  subst hv
  rw [hid]
  exact hk

/-- Identifiers are pairwise distinct after the identity pass. -/
lemma identityPass_ids_nodup (l : List RawEvent) :
    ((identityPass l).map (·.event_id)).Nodup := by
  unfold identityPass
  obtain ⟨hvals, hnd⟩ := goodMap_foldl l [] goodMap_nil
  rw [List.map_map]
  have : (l.foldl identStep []).map ((·.event_id) ∘ Prod.snd) =
      (l.foldl identStep []).map Prod.fst := by
    apply List.map_congr_left
    intro kv hkv
    exact (hvals kv hkv).1
  rw [this]
  exact hnd

lemma filter_values_of_not_key (idv : String) :
    ∀ m : List (String × RawEvent), (∀ kv ∈ m, kv.2.event_id = kv.1) →
      idv ∉ m.map Prod.fst →
      (m.map Prod.snd).filter (fun v => v.event_id == idv) = [] := by
  intro m
  induction m with
  | nil => intro _ _; rfl
  | cons kv m ih =>
    intro hvals hnmem
    obtain ⟨k, v⟩ := kv
    simp only [List.map_cons, List.mem_cons] at hnmem ⊢
    have hv : v.event_id = k := hvals _ (List.mem_cons_self _ _)
    have hk : k ≠ idv := fun h => hnmem (Or.inl h.symm)
    rw [List.filter_cons_of_neg (by simp [hv, hk])]
    exact ih (fun kv h => hvals kv (List.mem_cons_of_mem _ h)) (fun h => hnmem (Or.inr h))

/-- With a well-formed map, filtering the stored records by an identifier
yields exactly the looked-up record (or nothing). -/
lemma filter_values_lookupA (idv : String) :
    ∀ m : List (String × RawEvent), GoodMap m →
      (m.map Prod.snd).filter (fun v => v.event_id == idv) = (lookupA m idv).toList := by
  intro m
  induction m with
  | nil => intro _; rfl
  | cons kv m ih =>
    intro hm
    obtain ⟨k, v⟩ := kv
    obtain ⟨hvals, hnd⟩ := hm
    have hv : v.event_id = k := (hvals _ (List.mem_cons_self _ _)).1
    have hm' : GoodMap m :=
      ⟨fun kv h => hvals kv (List.mem_cons_of_mem _ h), (List.nodup_cons.mp hnd).2⟩
    by_cases hk : k = idv
    · subst hk
      simp only [List.map_cons, lookupA, if_pos rfl]
      rw [List.filter_cons_of_pos (by simp [hv])]
      have hknm : k ∉ m.map Prod.fst := by
        simpa using (List.nodup_cons.mp hnd).1
      rw [filter_values_of_not_key k m (fun kv h => (hm'.1 kv h).1) hknm]
      rfl
    · simp only [List.map_cons, lookupA, if_neg hk]
      rw [List.filter_cons_of_neg (by simp [hv, hk])]
      exact ih hm'

/-- C2: in the identity pass, for every identifier group exactly one record
survives, and it carries the latest capture timestamp of the group; in
particular, of two records with the same identifier and capture timestamps
T1 < T2, only the T2 record survives. -/
theorem spec_C2_identityLatest :
    ∀ (l : List RawEvent) (idv : String), trimS idv ≠ "" →
      (∃ x ∈ l, x.event_id = idv) →
      (((identityPass l).filter (fun v => v.event_id == idv)).length = 1 ∧
        ∀ s ∈ (identityPass l).filter (fun v => v.event_id == idv),
          ∀ x ∈ l, x.event_id = idv → x.crawled_at ≤ s.crawled_at) ∧
      (∀ e1 e2 : RawEvent, e1.event_id = idv → e2.event_id = idv →
        e1.crawled_at < e2.crawled_at → identityPass [e1, e2] = [e2]) := by
  intro l idv hid hgrp
  have hlook : lookupA (l.foldl identStep []) idv = groupFold idv none l := by
    simpa using lookupA_foldl_identStep idv hid l []
  obtain ⟨s, hs⟩ := groupFold_of_mem idv l hgrp
  have hfilter : (identityPass l).filter (fun v => v.event_id == idv) = [s] := by
    unfold identityPass
    rw [filter_values_lookupA idv _ (goodMap_foldl l [] goodMap_nil), hlook, hs]
    rfl
  refine ⟨⟨by rw [hfilter]; rfl, ?_⟩, ?_⟩
  · intro s' hs' x hx hxid
    rw [hfilter, List.mem_singleton] at hs'
    rw [hs']
    exact groupFold_ge_members idv l none s hs x hx hxid
  · intro e1 e2 h1 h2 hlt
    have hne1 : ¬(trimS e1.event_id = "") := by rw [h1]; exact hid
    have hne2 : ¬(trimS e2.event_id = "") := by rw [h2]; exact hid
    unfold identityPass
    simp only [List.foldl_cons, List.foldl_nil, identStep, if_neg hne1, if_neg hne2]
    rw [h1, h2]
    simp [updateAssoc, choose, hlt]

/-- Older and newer scrape of the same record (identifier `"dup"`). -/
def dupOld : RawEvent := ⟨"dup", "Duplicate event", "Flood", "2025-01-01", "1.0", "2.0", 1⟩

/-- The re-scrape of `dupOld`, captured later. -/
def dupNew : RawEvent := ⟨"dup", "Duplicate event", "Flood", "2025-01-01", "1.0", "2.0", 2⟩

/-- Closed witness for C2: of two records with identical identifiers and
capture times 1 < 2, only the later one survives the identity pass. -/
theorem spec_C2_identityLatest_witness :
    identityPass [dupOld, dupNew] = [dupNew] :=
  (spec_C2_identityLatest [dupOld, dupNew] "dup" (by decide)
      ⟨dupOld, by decide, rfl⟩).2 dupOld dupNew rfl rfl (by decide)

/-! ## Idempotence machinery -/

lemma updateAssoc_of_lookup_none {m : List (String × RawEvent)} {k : String} (e : RawEvent)
    (h : lookupA m k = none) : updateAssoc m k e = m ++ [(k, e)] := by
  induction m with
  | nil => rfl
  | cons kv m ih =>
    obtain ⟨k', v⟩ := kv
    simp only [lookupA] at h
    by_cases hk : k' = k
    · rw [if_pos hk] at h
      cases h
    · rw [if_neg hk] at h
      simp [updateAssoc, hk, ih h]

lemma lookupA_append_none {m : List (String × RawEvent)} {k k' : String} {e : RawEvent}
    (h : lookupA m k' = none) (hne : k' ≠ k) : lookupA (m ++ [(k, e)]) k' = none := by
  induction m with
  | nil => simp [lookupA, Ne.symm hne]
  | cons kv m ih =>
    obtain ⟨k'', v⟩ := kv
    simp only [lookupA] at h ⊢
    by_cases hk : k'' = k'
    · rw [if_pos hk] at h
      cases h
    · rw [if_neg hk] at h ⊢
      exact ih h

/-- On a list whose identifiers are non-blank, pairwise distinct, and fresh
for the accumulator, the identity-pass fold just appends every record. -/
lemma foldl_identStep_clean :
    ∀ (l : List RawEvent) (m : List (String × RawEvent)),
      (∀ e ∈ l, trimS e.event_id ≠ "") →
      (l.map (·.event_id)).Nodup →
      (∀ e ∈ l, lookupA m e.event_id = none) →
      l.foldl identStep m = m ++ l.map (fun e => (e.event_id, e)) := by
  intro l
  induction l with
  | nil => intro m _ _ _; simp
  | cons e l ih =>
    intro m hblank hnd hfresh
    simp only [List.foldl_cons]
    have hstep : identStep m e = m ++ [(e.event_id, e)] := by
      rw [identStep, if_neg (hblank e (List.mem_cons_self _ _))]
      exact updateAssoc_of_lookup_none e (hfresh e (List.mem_cons_self _ _))
    rw [hstep]
    have hnd2 : (∀ x ∈ l, ¬x.event_id = e.event_id) ∧ (l.map (·.event_id)).Nodup := by
      simpa using hnd
    rw [ih (m ++ [(e.event_id, e)]) (fun x hx => hblank x (List.mem_cons_of_mem _ hx)) hnd2.2
      (fun x hx => lookupA_append_none (hfresh x (List.mem_cons_of_mem _ hx)) (hnd2.1 x hx))]
    simp

/-- The identity pass is the identity on lists with non-blank, pairwise
distinct identifiers. -/
lemma identityPass_clean (l : List RawEvent)
    (hblank : ∀ e ∈ l, trimS e.event_id ≠ "")
    (hnd : (l.map (·.event_id)).Nodup) : identityPass l = l := by
  unfold identityPass
  rw [foldl_identStep_clean l [] hblank hnd (fun _ _ => rfl)]
  simp only [List.nil_append, List.map_map]
  rw [show (Prod.snd ∘ fun e : RawEvent => (e.event_id, e)) = id from rfl, List.map_id]

/-! ## Content-pass lemmas -/

/-- The content pass yields a subsequence of its input. -/
lemma contentPassAux_sublist :
    ∀ (l : List RawEvent) (seen : List (String × String × Option Int × Option Int)),
      List.Sublist (contentPassAux seen l) l := by
  intro l
  induction l with
  | nil => intro seen; simp [contentPassAux]
  | cons e l ih =>
    intro seen
    unfold contentPassAux
    split
    · exact (ih _).cons₂ e
    · exact (ih seen).cons e

/-- Every record emitted by the content pass has a key outside the seen set
the pass was started with. -/
lemma contentPassAux_key_notin :
    ∀ (l : List RawEvent) (seen : List (String × String × Option Int × Option Int))
      (e : RawEvent), e ∈ contentPassAux seen l → contentKey e ∉ seen := by
  intro l
  induction l with
  | nil => intro seen e he; simp [contentPassAux] at he
  | cons x l ih =>
    intro seen e he
    unfold contentPassAux at he
    split at he
    · next hcond =>
      rcases List.mem_cons.mp he with he | he
      · subst he
        exact hcond.1
      · intro hmem
        exact ih _ e he (List.mem_cons_of_mem _ hmem)
    · exact ih seen e he

/-- Every record emitted by the content pass has a non-blank normalised
title. -/
lemma contentPassAux_title_ne :
    ∀ (l : List RawEvent) (seen : List (String × String × Option Int × Option Int))
      (e : RawEvent), e ∈ contentPassAux seen l → normTitle e.event_title ≠ "" := by
  intro l
  induction l with
  | nil => intro seen e he; simp [contentPassAux] at he
  | cons x l ih =>
    intro seen e he
    unfold contentPassAux at he
    split at he
    · next hcond =>
      rcases List.mem_cons.mp he with he | he
      · subst he
        exact hcond.2
      · exact ih _ e he
    · exact ih seen e he

/-- The content keys of the emitted records are pairwise distinct. -/
lemma contentPassAux_keys_nodup :
    ∀ (l : List RawEvent) (seen : List (String × String × Option Int × Option Int)),
      ((contentPassAux seen l).map contentKey).Nodup := by
  intro l
  induction l with
  | nil => intro seen; simp [contentPassAux]
  | cons e l ih =>
    intro seen
    unfold contentPassAux
    split
    · simp only [List.map_cons, List.nodup_cons]
      refine ⟨?_, ih _⟩
      intro hmem
      obtain ⟨x, hx, hkey⟩ := List.mem_map.mp hmem
      exact contentPassAux_key_notin l _ x hx (hkey ▸ List.mem_cons_self _ _)
    · exact ih seen

/-- The content pass is the identity on lists of non-blank-titled records
with pairwise distinct keys, all fresh for the seen set. -/
lemma contentPassAux_clean :
    ∀ (l : List RawEvent) (seen : List (String × String × Option Int × Option Int)),
      (∀ e ∈ l, normTitle e.event_title ≠ "") →
      (l.map contentKey).Nodup →
      (∀ e ∈ l, contentKey e ∉ seen) →
      contentPassAux seen l = l := by
  intro l
  induction l with
  | nil => intro seen _ _ _; rfl
  | cons e l ih =>
    intro seen htitle hnd hfresh
    have hcond : contentKey e ∉ seen ∧ normTitle e.event_title ≠ "" :=
      ⟨hfresh e (List.mem_cons_self _ _), htitle e (List.mem_cons_self _ _)⟩
    unfold contentPassAux
    rw [if_pos hcond]
    congr 1
    have hnd2 : (∀ x ∈ l, ¬contentKey x = contentKey e) ∧ (l.map contentKey).Nodup := by
      simpa using hnd
    refine ih _ (fun x hx => htitle x (List.mem_cons_of_mem _ hx)) hnd2.2 ?_
    intro x hx hmem
    rcases List.mem_cons.mp hmem with hmem | hmem
    · exact hnd2.1 x hx hmem
    · exact hfresh x (List.mem_cons_of_mem _ hx) hmem

/-- C9: the two-phase deduplicator is idempotent — running it on its own
output returns that output unchanged. -/
theorem spec_C9_dedupeIdempotent : ∀ l : List RawEvent, dedupe (dedupe l) = dedupe l := by
  intro l
  have hsub : List.Sublist (dedupe l) (identityPass l) :=
    contentPassAux_sublist (identityPass l) []
  have hid : identityPass (dedupe l) = dedupe l := by
    apply identityPass_clean
    · intro e he
      exact identityPass_id_nonblank e (hsub.mem he)
    · exact (identityPass_ids_nodup l).sublist (hsub.map (·.event_id))
  show contentPass (identityPass (dedupe l)) = dedupe l
  rw [hid]
  apply contentPassAux_clean
  · exact contentPassAux_title_ne (identityPass l) []
  · exact contentPassAux_keys_nodup (identityPass l) []
  · intro e _
    simp

/-- C10: every event emitted by the merge-and-preprocess pipeline has a
non-blank identifier and a non-blank title; a record with a blank (empty or
whitespace-only) identifier is silently dropped by the identity pass
regardless of its other fields. -/
theorem spec_C10_outputInvariant :
    ∀ (now : Int) (l : List RawEvent),
      (∀ p ∈ pipeline now l, trimS p.event_id ≠ "" ∧ trimS p.event_title ≠ "") ∧
      (∀ e : RawEvent, trimS e.event_id = "" → e ∉ identityPass l) := by
  intro now l
  constructor
  · intro p hp
    unfold pipeline preprocess at hp
    rw [List.mem_filter] at hp
    obtain ⟨hmem, hok⟩ := hp
    obtain ⟨e, he, hpe⟩ := List.mem_map.mp hmem
    have hid : trimS e.event_id ≠ "" :=
      identityPass_id_nonblank e ((contentPassAux_sublist (identityPass l) []).mem he)
    constructor
    · rw [← hpe]
      exact hid
    · unfold titleOk at hok
      rw [Bool.and_eq_true, decide_eq_true_iff, decide_eq_true_iff] at hok
      exact hok.2
  · intro e hblank hmem
    exact identityPass_id_nonblank e hmem hblank

/-- An ordinary well-formed record. -/
def sampleRaw : RawEvent := ⟨"sr1", "Sample event", "Flood", "2025-01-02", "1.5", "2.5", 10⟩

/-- Closed witness for C10: the pipeline's output record on a one-record load
has non-blank identifier and title. -/
theorem spec_C10_outputInvariant_witness :
    trimS (process 0 sampleRaw).event_id ≠ "" ∧
    trimS (process 0 sampleRaw).event_title ≠ "" :=
  (spec_C10_outputInvariant 0 [sampleRaw]).1 (process 0 sampleRaw) (by
    show process 0 sampleRaw ∈ preprocess 0 (dedupe [sampleRaw])
    have h1 : identityPass [sampleRaw] = [sampleRaw] := by decide
    have h2 : dedupe [sampleRaw] = [sampleRaw] := by
      show contentPass (identityPass [sampleRaw]) = [sampleRaw]
      rw [h1]
      show contentPassAux [] [sampleRaw] = [sampleRaw]
      unfold contentPassAux
      rw [if_pos ⟨List.not_mem_nil _, by decide⟩]
      rfl
    rw [h2]
    unfold preprocess
    rw [List.map_singleton, List.filter_cons_of_pos (by decide)]
    exact List.mem_cons_self _ _)

/-- The content pass as §4.3 words it: iterate the identity-deduplicated set
in encounter order and keep a record iff its normalised title is non-blank
and its content key has not occurred earlier in the iteration (first-seen
wins); `pre` accumulates the records already iterated. -/
def contentSpecAux : List RawEvent → List RawEvent → List RawEvent
  | _, [] => []
  | pre, e :: rest =>
    if normTitle e.event_title ≠ "" ∧ ∀ p ∈ pre, contentKey p ≠ contentKey e then
      e :: contentSpecAux (pre ++ [e]) rest
    else contentSpecAux (pre ++ [e]) rest

/-- The specification-worded content pass, started with nothing iterated. -/
def contentPassSpec (l : List RawEvent) : List RawEvent := contentSpecAux [] l

/-- Equal content keys have equal (normalised-title) first components. -/
lemma contentKey_fst {p q : RawEvent} (h : contentKey p = contentKey q) :
    normTitle p.event_title = normTitle q.event_title :=
  congrArg Prod.fst h

/-- The implementation's seen-set pass coincides with the specification's
earlier-in-iteration pass, as long as the seen set holds exactly the keys of
the already-iterated records with non-blank titles. -/
lemma contentPassAux_eq_spec :
    ∀ (l : List RawEvent) (seen : List (String × String × Option Int × Option Int))
      (pre : List RawEvent),
      (∀ k, k ∈ seen ↔ ∃ p ∈ pre, normTitle p.event_title ≠ "" ∧ contentKey p = k) →
      contentPassAux seen l = contentSpecAux pre l := by
  intro l
  induction l with
  | nil => intro seen pre _; rfl
  | cons e l ih =>
    intro seen pre hinv
    have hiff : (contentKey e ∉ seen ∧ normTitle e.event_title ≠ "") ↔
        (normTitle e.event_title ≠ "" ∧ ∀ p ∈ pre, contentKey p ≠ contentKey e) := by
      constructor
      · rintro ⟨hk, ht⟩
        refine ⟨ht, fun p hp hkey => hk ?_⟩
        rw [hinv]
        exact ⟨p, hp, by rw [contentKey_fst hkey]; exact ht, hkey⟩
      · rintro ⟨ht, hpre⟩
        refine ⟨fun hk => ?_, ht⟩
        obtain ⟨p, hp, _, hkey⟩ := (hinv _).mp hk
        exact hpre p hp hkey
    by_cases hcond : contentKey e ∉ seen ∧ normTitle e.event_title ≠ ""
    · rw [show contentPassAux seen (e :: l) =
          e :: contentPassAux (contentKey e :: seen) l from if_pos hcond,
        show contentSpecAux pre (e :: l) = e :: contentSpecAux (pre ++ [e]) l
          from if_pos (hiff.mp hcond)]
      congr 1
      apply ih
      intro k
      constructor
      · intro hk
        rcases List.mem_cons.mp hk with hk | hk
        · exact ⟨e, by simp, hcond.2, hk.symm⟩
        · obtain ⟨p, hp, hnt, hkey⟩ := (hinv k).mp hk
          exact ⟨p, List.mem_append_left _ hp, hnt, hkey⟩
      · rintro ⟨p, hp, hnt, hkey⟩
        rcases List.mem_append.mp hp with hp | hp
        · exact List.mem_cons_of_mem _ ((hinv k).mpr ⟨p, hp, hnt, hkey⟩)
        · rw [List.mem_singleton] at hp
          subst hp
          rw [← hkey]
          exact List.mem_cons_self _ _
    · rw [show contentPassAux seen (e :: l) = contentPassAux seen l from if_neg hcond,
        show contentSpecAux pre (e :: l) = contentSpecAux (pre ++ [e]) l
          from if_neg (fun h => hcond (hiff.mpr h))]
      apply ih
      intro k
      constructor
      · intro hk
        obtain ⟨p, hp, hnt, hkey⟩ := (hinv k).mp hk
        exact ⟨p, List.mem_append_left _ hp, hnt, hkey⟩
      · rintro ⟨p, hp, hnt, hkey⟩
        rcases List.mem_append.mp hp with hp | hp
        · exact (hinv k).mpr ⟨p, hp, hnt, hkey⟩
        · rw [List.mem_singleton] at hp
          subst hp
          rcases not_and_or.mp hcond with hk' | hk'
          · rw [not_not] at hk'
            rw [← hkey]
            exact hk'
          · exact absurd hnt hk'

/-- C3: a record survives the content pass iff its normalised title is
non-blank and its content key has not occurred earlier in the iteration
(first-seen wins), and no blank-normalised-title record is ever emitted. -/
theorem spec_C3_contentFirstSeen :
    ∀ l : List RawEvent,
      contentPass l = contentPassSpec l ∧
      ∀ e ∈ contentPass l, normTitle e.event_title ≠ "" := by
  intro l
  exact ⟨contentPassAux_eq_spec l [] [] (by simp),
    fun e he => contentPassAux_title_ne l [] e he⟩

/-- Closed witness for C3: the surviving sample record has a non-blank
normalised title. -/
theorem spec_C3_contentFirstSeen_witness :
    normTitle sampleRaw.event_title ≠ "" :=
  (spec_C3_contentFirstSeen [sampleRaw]).2 sampleRaw (by with_unfolding_all decide)
